import Mathlib

/-!
# testflight: the backtest loop of `strategy.go`

A shallow embedding of `strategy.go` (package `main`) and a verification of
the properties its specification states about `Backtest.Run`.

Modelling choices.

* Go `int` is `Int`.  The only integers the loop produces are the indices of
  `range data`, which are bounded by the length of a slice, so no arithmetic
  can overflow.
* The observations are `float64` in the source.  The engine never inspects
  an observation (it only slices the series), so the element type is a
  parameter `α`.
* The history a method receives is the Go slice `data[:step]`.  It has
  length `step` but shares the backing array of `data` and keeps its
  capacity, so the callee can reslice it to `h[:cap(h)]` and read the whole
  series, and it can assign to the elements.  A history is therefore a
  `Slice`: the array it reaches and its length, at most the capacity.  The series is taken with
  `cap(data) = len(data)`, as for a slice literal.
* `Strategy` is a Go interface: a value of it is a receiver together with
  four methods, and a method may update its receiver.  A strategy is
  therefore a receiver state `state : σ` and four methods of type
  `σ → Slice α → String × σ × List (Nat × α)`: the token, the receiver state
  after the call and the assignments `array[i] = x` the call made.  The nil
  interface value is `none`.
* Calling a method on the nil interface is a run-time panic; it is the only
  way the loop itself can fail, and `Run` returns in `Except RunPanic`.  A
  method is a total function here: a strategy whose method panics or does
  not return is outside the model, and so is an assignment outside the
  capacity, which panics in Go (`applyWrites` leaves the array as it is).
* `*Status` is a pointer owned by the `Backtest`; `Run` returns that same
  pointer.  `Run` returns the status together with the `Backtest` after the
  call, whose `status` field is the returned value.
-/

namespace Testflight

/-- A Signal is emitted by the signaler of the strategy (`type Signal struct`). -/
structure Signal where
  action : String
  step : Int
  deriving DecidableEq, Repr

/-- A Trade is performed by the Entryer, Exiter and Stopper (`type Trade struct`). -/
structure Trade where
  order : String
  step : Int
  deriving DecidableEq, Repr

/-- The state of the current simulation (`type Status struct`). -/
structure Status where
  step : Int
  signals : List Signal
  trades : List Trade
  deriving DecidableEq, Repr

/-- The constructor `newStatus()`: step 0 and two empty logs. -/
def newStatus : Status :=
  { step := 0, signals := [], trades := [] }

/-- A slice value `data[:len]` as a callee receives it: `array` holds the
elements it can reach, up to its capacity, and `len` is its length, which is
at most the capacity. -/
structure Slice (α : Type) where
  array : List α
  len : Nat
  le : len ≤ array.length

/-- The slice expression `data[:n]`.  The loop takes it only for
`n < len(data)`; beyond the capacity the expression panics in Go and the
slice is cut at the capacity here. -/
def sliceTo {α : Type} (data : List α) (n : Nat) : Slice α :=
  { array := data, len := min n data.length, le := Nat.min_le_right n data.length }

/-- The elements `h[0], ..., h[len(h)-1]` of a slice. -/
def Slice.visible {α : Type} (h : Slice α) : List α :=
  h.array.take h.len

/-- The array after the assignments `array[i] = x` of `writes`, in order. -/
def applyWrites {α : Type} (array : List α) (writes : List (Nat × α)) : List α :=
  writes.foldl (fun a w => a.set w.1 w.2) array

/-- The interface `Strategy`: a receiver and its four methods.  Each method
takes the receiver state and a history and returns its token, the receiver
state after the call and the assignments it made to the array of the
history. -/
structure Strategy (σ α : Type) where
  state : σ
  Signaler : σ → Slice α → String × σ × List (Nat × α)
  Entryer : σ → Slice α → String × σ × List (Nat × α)
  Exiter : σ → Slice α → String × σ × List (Nat × α)
  Stopper : σ → Slice α → String × σ × List (Nat × α)

/-- A Backtest is a strategy (possibly the nil interface) and a rolling
status (`type Backtest struct`). -/
structure Backtest (σ α : Type) where
  strategy : Option (Strategy σ α)
  status : Status

/-- The constructor `newBacktest(strategy)`: it stores the strategy it is
given, nil or not, next to a new status. -/
def newBacktest {σ α : Type} (strategy : Option (Strategy σ α)) : Backtest σ α :=
  { strategy := strategy, status := newStatus }

/-- The run-time failure of the loop: a method call on a nil interface. -/
inductive RunPanic where
  | nilStrategy
  deriving DecidableEq, Repr

/-- The statement `if sig := ...; sig != "" { signals = append(signals, Signal{sig, step}) }`
once the call has returned `sig`. -/
def Status.recordSignal (status : Status) (sig : String) (step : Nat) : Status :=
  if sig ≠ "" then
    { status with signals := status.signals ++ [{ action := sig, step := (step : Int) }] }
  else status

/-- The statement `if t := ...; t != "" { trades = append(trades, Trade{t, step}) }`
once the call has returned `t`; the same for Entryer, Exiter and Stopper. -/
def Status.recordTrade (status : Status) (t : String) (step : Nat) : Status :=
  if t ≠ "" then
    { status with trades := status.trades ++ [{ order := t, step := (step : Int) }] }
  else status

/-- The body of the `for` loop of `Run` on a non-nil strategy, for the index
`step`: the four calls on `data[:step]` in source order, each followed by
its conditional append.  Every call receives the slice of length `step` over
the array of `data` as the earlier calls left it; the result is the
strategy, the array of `data` and the status after the iteration. -/
def Strategy.iteration {σ α : Type} (S : Strategy σ α) (data : List α) (step : Nat)
    (status : Status) : Strategy σ α × List α × Status :=
  let r1 := S.Signaler S.state (sliceTo data step)
  let data1 := applyWrites data r1.2.2
  let status1 := status.recordSignal r1.1 step
  let r2 := S.Entryer r1.2.1 (sliceTo data1 step)
  let data2 := applyWrites data1 r2.2.2
  let status2 := status1.recordTrade r2.1 step
  let r3 := S.Exiter r2.2.1 (sliceTo data2 step)
  let data3 := applyWrites data2 r3.2.2
  let status3 := status2.recordTrade r3.1 step
  let r4 := S.Stopper r3.2.1 (sliceTo data3 step)
  let data4 := applyWrites data3 r4.2.2
  let status4 := status3.recordTrade r4.1 step
  ({ S with state := r4.2.1 }, data4, status4)

/-- The body of the `for` loop of `Run`.  The first statement of the body
calls `b.strategy.Signaler`, which panics on the nil interface before
anything is written. -/
def Backtest.iteration {σ α : Type} (b : Backtest σ α) (data : List α) (step : Nat) :
    Except RunPanic (Backtest σ α × List α) :=
  match b.strategy with
  | none => Except.error RunPanic.nilStrategy
  | some S =>
    let r := S.iteration data step b.status
    Except.ok ({ strategy := some r.1, status := r.2.2 }, r.2.1)

/-- The `for` loop of `Run` over the indices still to visit; `data` is the
local slice of `Run`, whose elements the calls may have assigned. -/
def Backtest.loop {σ α : Type} : List α → List Nat → Backtest σ α →
    Except RunPanic (Backtest σ α)
  | _, [], b => Except.ok b
  | data, step :: rest, b =>
    match b.iteration data step with
    | Except.error e => Except.error e
    | Except.ok r => Backtest.loop r.2 rest r.1

/-- The method `Run` with the slice bound to `data` at the line
`data := []float64{}`: `for step, _ := range data { ... }` followed by
`return b.status`.  The range expression is evaluated once, so the indices
are those of the length `data` has when the loop starts. -/
def Backtest.RunOn {σ α : Type} (data : List α) (b : Backtest σ α) :
    Except RunPanic (Status × Backtest σ α) :=
  match Backtest.loop data (List.range data.length) b with
  | Except.error e => Except.error e
  | Except.ok b1 => Except.ok (b1.status, b1)

/-- The method `Run` as written: the data feed is the empty slice. -/
def Backtest.Run {σ α : Type} (b : Backtest σ α) : Except RunPanic (Status × Backtest σ α) :=
  Backtest.RunOn [] b

/-- The returned status of a run, when the run returns. -/
def returned {σ α : Type} (r : Except RunPanic (Status × Backtest σ α)) : Option Status :=
  match r with
  | Except.error _ => none
  | Except.ok p => some p.1

/-- A strategy without receiver state, given by four functions of the
history: each method answers from the elements `h[0:len(h)]` only and assigns
nothing. -/
def Strategy.ofFuns {α : Type} (sg en ex st : List α → String) : Strategy Unit α :=
  { state := (),
    Signaler := fun u h => (sg h.visible, u, []),
    Entryer := fun u h => (en h.visible, u, []),
    Exiter := fun u h => (ex h.visible, u, []),
    Stopper := fun u h => (st h.visible, u, []) }

/-- A strategy that counts the calls made to its four methods: the receiver
state of `S` is paired with a counter that every call increments. -/
def Strategy.counting {σ α : Type} (S : Strategy σ α) : Strategy (σ × Nat) α :=
  { state := (S.state, 0),
    Signaler := fun s h =>
      ((S.Signaler s.1 h).1, ((S.Signaler s.1 h).2.1, s.2 + 1), (S.Signaler s.1 h).2.2),
    Entryer := fun s h =>
      ((S.Entryer s.1 h).1, ((S.Entryer s.1 h).2.1, s.2 + 1), (S.Entryer s.1 h).2.2),
    Exiter := fun s h =>
      ((S.Exiter s.1 h).1, ((S.Exiter s.1 h).2.1, s.2 + 1), (S.Exiter s.1 h).2.2),
    Stopper := fun s h =>
      ((S.Stopper s.1 h).1, ((S.Stopper s.1 h).2.1, s.2 + 1), (S.Stopper s.1 h).2.2) }

/-- An operation whose result (token, receiver state and assignments) is
determined by the receiver state and the elements `h[0:len(h)]` of the
history: it does not read the array beyond the length of the history. -/
def ReadsVisibleOnly {σ α : Type} (op : σ → Slice α → String × σ × List (Nat × α)) : Prop :=
  ∀ (s : σ) (h1 h2 : Slice α), h1.len = h2.len → h1.visible = h2.visible → op s h1 = op s h2

/-! ## The reference definition of the logs, from the specification -/

/-- The signals log as the specification words it: for `s = 0..N-1` in
increasing order, `Signal{Signaler(series[0:s]), s}` for those `s` where the
result is not the no-action value. -/
def refSignals {α : Type} (sg : List α → String) (series : List α) : List Signal :=
  (List.range series.length).filterMap fun s =>
    if sg (series.take s) = "" then none
    else some { action := sg (series.take s), step := (s : Int) }

/-- The trades log as the specification words it: the concatenation, for
`s = 0..N-1` in increasing order, of the Entryer, Exiter and Stopper trades of
step `s` in that order, keeping the entries whose result is not the no-action
value. -/
def refTrades {α : Type} (en ex st : List α → String) (series : List α) : List Trade :=
  (List.range series.length).flatMap fun s =>
    ([{ order := en (series.take s), step := (s : Int) },
      { order := ex (series.take s), step := (s : Int) },
      { order := st (series.take s), step := (s : Int) }] : List Trade).filter
      fun t => decide (t.order ≠ "")

/-! ## What one iteration returns and writes -/

/-- The result of the call of the Signaler in the iteration `step`. -/
def Strategy.sigCall {σ α : Type} (S : Strategy σ α) (data : List α) (step : Nat) :
    String × σ × List (Nat × α) :=
  S.Signaler S.state (sliceTo data step)

/-- The array of the series after the call of the Signaler. -/
def Strategy.dataSig {σ α : Type} (S : Strategy σ α) (data : List α) (step : Nat) : List α :=
  applyWrites data (S.sigCall data step).2.2

/-- The result of the call of the Entryer in the iteration `step`. -/
def Strategy.entryCall {σ α : Type} (S : Strategy σ α) (data : List α) (step : Nat) :
    String × σ × List (Nat × α) :=
  S.Entryer (S.sigCall data step).2.1 (sliceTo (S.dataSig data step) step)

/-- The array of the series after the call of the Entryer. -/
def Strategy.dataEntry {σ α : Type} (S : Strategy σ α) (data : List α) (step : Nat) : List α :=
  applyWrites (S.dataSig data step) (S.entryCall data step).2.2

/-- The result of the call of the Exiter in the iteration `step`. -/
def Strategy.exitCall {σ α : Type} (S : Strategy σ α) (data : List α) (step : Nat) :
    String × σ × List (Nat × α) :=
  S.Exiter (S.entryCall data step).2.1 (sliceTo (S.dataEntry data step) step)

/-- The array of the series after the call of the Exiter. -/
def Strategy.dataExit {σ α : Type} (S : Strategy σ α) (data : List α) (step : Nat) : List α :=
  applyWrites (S.dataEntry data step) (S.exitCall data step).2.2

/-- The result of the call of the Stopper in the iteration `step`. -/
def Strategy.stopCall {σ α : Type} (S : Strategy σ α) (data : List α) (step : Nat) :
    String × σ × List (Nat × α) :=
  S.Stopper (S.exitCall data step).2.1 (sliceTo (S.dataExit data step) step)

/-- The array of the series after the four calls of the iteration `step`. -/
def Strategy.dataAfter {σ α : Type} (S : Strategy σ α) (data : List α) (step : Nat) : List α :=
  applyWrites (S.dataExit data step) (S.stopCall data step).2.2

/-- The token the Signaler returns in the iteration `step`. -/
def Strategy.sigToken {σ α : Type} (S : Strategy σ α) (data : List α) (step : Nat) : String :=
  (S.sigCall data step).1

/-- The token the Entryer returns in the iteration `step`. -/
def Strategy.entryToken {σ α : Type} (S : Strategy σ α) (data : List α) (step : Nat) : String :=
  (S.entryCall data step).1

/-- The token the Exiter returns in the iteration `step`. -/
def Strategy.exitToken {σ α : Type} (S : Strategy σ α) (data : List α) (step : Nat) : String :=
  (S.exitCall data step).1

/-- The token the Stopper returns in the iteration `step`. -/
def Strategy.stopToken {σ α : Type} (S : Strategy σ α) (data : List α) (step : Nat) : String :=
  (S.stopCall data step).1

/-- The strategy after the four calls of the iteration `step`. -/
def Strategy.after {σ α : Type} (S : Strategy σ α) (data : List α) (step : Nat) : Strategy σ α :=
  { S with state := (S.stopCall data step).2.1 }

/-- The entries a token adds to the signals log at `step`. -/
def signalEntries (sig : String) (step : Nat) : List Signal :=
  if sig ≠ "" then [{ action := sig, step := (step : Int) }] else []

/-- The entries a token adds to the trades log at `step`. -/
def tradeEntries (t : String) (step : Nat) : List Trade :=
  if t ≠ "" then [{ order := t, step := (step : Int) }] else []

/-- The strategy and the array of the series after the iterations `steps`. -/
def Strategy.advance {σ α : Type} (S : Strategy σ α) (data : List α) :
    List Nat → Strategy σ α × List α
  | [] => (S, data)
  | k :: ks => Strategy.advance (S.after data k) (S.dataAfter data k) ks

/-- The signals the iterations `steps` append. -/
def Strategy.newSignals {σ α : Type} (S : Strategy σ α) (data : List α) : List Nat → List Signal
  | [] => []
  | k :: ks =>
    signalEntries (S.sigToken data k) k
      ++ Strategy.newSignals (S.after data k) (S.dataAfter data k) ks

/-- The trades the iterations `steps` append. -/
def Strategy.newTrades {σ α : Type} (S : Strategy σ α) (data : List α) : List Nat → List Trade
  | [] => []
  | k :: ks =>
    tradeEntries (S.entryToken data k) k ++ tradeEntries (S.exitToken data k) k
      ++ tradeEntries (S.stopToken data k) k
      ++ Strategy.newTrades (S.after data k) (S.dataAfter data k) ks

/-- The strategy and the array of the series as they are when the iteration
`k` of a run over `data` begins. -/
def Strategy.atStep {σ α : Type} (S : Strategy σ α) (data : List α) (k : Nat) :
    Strategy σ α × List α :=
  S.advance data (List.range k)

/-! ## Strategies used as concrete inputs -/

/-- A strategy that reads the last observation of its history: every
operation answers "Long" when the last observation is above 5, the Signaler
answers "Sell" otherwise. -/
def lastAbove : Strategy Unit Nat :=
  Strategy.ofFuns (fun h => if 5 < h.getLastD 0 then "Long" else "Sell")
    (fun h => if 5 < h.getLastD 0 then "Long" else "")
    (fun h => if 5 < h.getLastD 0 then "Long" else "")
    (fun h => if 5 < h.getLastD 0 then "Long" else "")

/-- A strategy whose Exiter answers "Long", a token outside the Exiter's
contract, on every history; the other operations answer the no-action value. -/
def exiterLong : Strategy Unit Nat :=
  Strategy.ofFuns (fun _ => "") (fun _ => "") (fun _ => "Long") (fun _ => "")

/-- The strategy whose four operations answer the no-action value on every
history. -/
def noAction : Strategy Unit Nat :=
  Strategy.ofFuns (fun _ => "") (fun _ => "") (fun _ => "") (fun _ => "")

/-- The strategy of the specification's concrete scenario: Signaler and
Entryer answer "Long" on a history of length 1 and the no-action value
otherwise, Exiter and Stopper always answer the no-action value. -/
def longAtOne : Strategy Unit Nat :=
  Strategy.ofFuns (fun h => if h.length = 1 then "Long" else "")
    (fun h => if h.length = 1 then "Long" else "") (fun _ => "") (fun _ => "")

/-- The tokens the specification's contract allows the Signaler; the
no-action value is the empty string in the code. -/
def signalerTokens : List String := ["Long", "Short", "Sell", ""]

/-- The tokens the specification's contract allows the Entryer. -/
def entryerTokens : List String := ["Long", "Short", ""]

/-- The tokens the specification's contract allows the Exiter and the Stopper. -/
def exiterTokens : List String := ["Sell", ""]

/-- The operation that answers the no-action value on every history. -/
def never (_ : List Nat) : String := ""

/-- The operation that answers "Long" on a history of length 1. -/
def longOnOne (h : List Nat) : String := if h.length = 1 then "Long" else ""

/-- The operation that answers "Sell" when the last observation of the
history is above 5. -/
def sellAbove (h : List Nat) : String := if 5 < h.getLastD 0 then "Sell" else ""

/-- A strategy whose Exiter and Stopper are both `sellAbove` and whose Entryer
is `longOnOne`. -/
def exitStop : Strategy Unit Nat :=
  Strategy.ofFuns never longOnOne sellAbove sellAbove

/-- The caller that invokes `Run` as written `n + 1` times in succession on
the same Backtest and keeps the Status the last call returns. -/
def Backtest.RunRepeated {σ α : Type} : Nat → Backtest σ α →
    Except RunPanic (Status × Backtest σ α)
  | 0, b => b.Run
  | n + 1, b =>
    match b.Run with
    | Except.error e => Except.error e
    | Except.ok r => Backtest.RunRepeated n r.2

/-- A strategy whose Signaler reads beyond the length of its history: it
reslices the history to its capacity and answers "Long" when the element of
index 2 of the series is above 5, and "Sell" otherwise. -/
def peekAhead : Strategy Unit Nat :=
  { state := (),
    Signaler := fun u h => (if 5 < h.array.getD 2 0 then "Long" else "Sell", u, []),
    Entryer := fun u _ => ("", u, []),
    Exiter := fun u _ => ("", u, []),
    Stopper := fun u _ => ("", u, []) }

/-- The Entryer of the flag strategies: it answers "Long" when the flag of
the receiver is set. -/
def flagEntryer (s : Bool) (_ : Slice Nat) : String × Bool × List (Nat × Nat) :=
  (if s then "Long" else "", s, [])

/-- The Exiter and Stopper of the flag strategies: no action. -/
def flagIdleOp (s : Bool) (_ : Slice Nat) : String × Bool × List (Nat × Nat) :=
  ("", s, [])

/-- A strategy whose Signaler sets the flag of the receiver and answers the
no-action value. -/
def flagQuiet : Strategy Bool Nat :=
  { state := false,
    Signaler := fun _ _ => ("", true, []),
    Entryer := flagEntryer, Exiter := flagIdleOp, Stopper := flagIdleOp }

/-- A strategy whose Signaler sets the flag of the receiver and answers
"Long". -/
def flagLoud : Strategy Bool Nat :=
  { state := false,
    Signaler := fun _ _ => ("Long", true, []),
    Entryer := flagEntryer, Exiter := flagIdleOp, Stopper := flagIdleOp }

/-- A strategy whose Signaler leaves the flag of the receiver as it is and
answers the no-action value. -/
def flagIdle : Strategy Bool Nat :=
  { state := false,
    Signaler := flagIdleOp,
    Entryer := flagEntryer, Exiter := flagIdleOp, Stopper := flagIdleOp }

/-! ## The loop on a non-nil strategy -/

theorem recordSignal_eq (status : Status) (sig : String) (step : Nat) :
    status.recordSignal sig step =
      { status with signals := status.signals ++ signalEntries sig step } := by
  unfold Status.recordSignal signalEntries
  split <;> simp

theorem recordTrade_eq (status : Status) (t : String) (step : Nat) :
    status.recordTrade t step =
      { status with trades := status.trades ++ tradeEntries t step } := by
  unfold Status.recordTrade tradeEntries
  split <;> simp

theorem iteration_eq {σ α : Type} (S : Strategy σ α) (data : List α) (step : Nat)
    (status : Status) :
    S.iteration data step status =
      (S.after data step, S.dataAfter data step,
        { step := status.step,
          signals := status.signals ++ signalEntries (S.sigToken data step) step,
          trades := status.trades ++ (tradeEntries (S.entryToken data step) step
            ++ tradeEntries (S.exitToken data step) step
            ++ tradeEntries (S.stopToken data step) step) }) := by
  simp [Strategy.iteration, recordSignal_eq, recordTrade_eq, Strategy.after,
    Strategy.dataAfter, Strategy.dataExit, Strategy.dataEntry, Strategy.dataSig,
    Strategy.sigCall, Strategy.entryCall, Strategy.exitCall, Strategy.stopCall,
    Strategy.sigToken, Strategy.entryToken, Strategy.exitToken, Strategy.stopToken,
    List.append_assoc]

theorem loop_some {σ α : Type} (steps : List Nat) :
    ∀ (data : List α) (S : Strategy σ α) (status : Status),
      Backtest.loop data steps { strategy := some S, status := status } =
        Except.ok { strategy := some (S.advance data steps).1,
                    status := { step := status.step,
                                signals := status.signals ++ S.newSignals data steps,
                                trades := status.trades ++ S.newTrades data steps } } := by
  induction steps with
  | nil => intro data S status; simp [Backtest.loop, Strategy.advance, Strategy.newSignals,
      Strategy.newTrades]
  | cons k ks ih =>
    intro data S status
    simp [Backtest.loop, Backtest.iteration, iteration_eq, ih, Strategy.advance,
      Strategy.newSignals, Strategy.newTrades, List.append_assoc]

theorem RunOn_some {σ α : Type} (data : List α) (S : Strategy σ α) (status : Status) :
    Backtest.RunOn data { strategy := some S, status := status } =
      Except.ok
        ({ step := status.step,
           signals := status.signals ++ S.newSignals data (List.range data.length),
           trades := status.trades ++ S.newTrades data (List.range data.length) },
         { strategy := some (S.advance data (List.range data.length)).1,
           status := { step := status.step,
                       signals := status.signals ++ S.newSignals data (List.range data.length),
                       trades := status.trades ++ S.newTrades data (List.range data.length) } }) := by
  simp [Backtest.RunOn, loop_some]

theorem length_applyWrites {α : Type} (writes : List (Nat × α)) :
    ∀ d : List α, (applyWrites d writes).length = d.length := by
  induction writes with
  | nil => intro d; rfl
  | cons w ws ih =>
    intro d
    simp only [applyWrites, List.foldl_cons] at ih ⊢
    rw [ih, List.length_set]

theorem length_dataAfter {σ α : Type} (S : Strategy σ α) (data : List α) (k : Nat) :
    (S.dataAfter data k).length = data.length := by
  simp [Strategy.dataAfter, Strategy.dataExit, Strategy.dataEntry, Strategy.dataSig,
    length_applyWrites]

theorem sliceTo_visible {α : Type} (data : List α) (n : Nat) :
    (sliceTo data n).visible = data.take n := by
  simp only [Slice.visible, sliceTo]
  by_cases h : n ≤ data.length
  · rw [Nat.min_eq_left h]
  · rw [Nat.min_eq_right (Nat.le_of_not_le h), List.take_of_length_le (Nat.le_refl _),
      List.take_of_length_le (Nat.le_of_not_le h)]

theorem visible_length {α : Type} (h : Slice α) : h.visible.length = h.len := by
  simp [Slice.visible, List.length_take, Nat.min_eq_left h.le]

theorem ofFuns_after {α : Type} (sg en ex st : List α → String) (data : List α) (k : Nat) :
    (Strategy.ofFuns sg en ex st).after data k = Strategy.ofFuns sg en ex st := by
  rfl

theorem ofFuns_dataAfter {α : Type} (sg en ex st : List α → String) (data : List α) (k : Nat) :
    (Strategy.ofFuns sg en ex st).dataAfter data k = data := by
  rfl

theorem ofFuns_sigToken {α : Type} (sg en ex st : List α → String) (data : List α) (k : Nat) :
    (Strategy.ofFuns sg en ex st).sigToken data k = sg (data.take k) :=
  congrArg sg (sliceTo_visible data k)

theorem ofFuns_entryToken {α : Type} (sg en ex st : List α → String) (data : List α) (k : Nat) :
    (Strategy.ofFuns sg en ex st).entryToken data k = en (data.take k) :=
  congrArg en (sliceTo_visible data k)

theorem ofFuns_exitToken {α : Type} (sg en ex st : List α → String) (data : List α) (k : Nat) :
    (Strategy.ofFuns sg en ex st).exitToken data k = ex (data.take k) :=
  congrArg ex (sliceTo_visible data k)

theorem ofFuns_stopToken {α : Type} (sg en ex st : List α → String) (data : List α) (k : Nat) :
    (Strategy.ofFuns sg en ex st).stopToken data k = st (data.take k) :=
  congrArg st (sliceTo_visible data k)

theorem ofFuns_newSignals {α : Type} (sg en ex st : List α → String) (data : List α)
    (steps : List Nat) :
    (Strategy.ofFuns sg en ex st).newSignals data steps =
      steps.flatMap fun k => signalEntries (sg (data.take k)) k := by
  induction steps with
  | nil => rfl
  | cons k ks ih =>
    rw [Strategy.newSignals, ofFuns_after, ofFuns_dataAfter, ih, ofFuns_sigToken]
    rfl

theorem ofFuns_newTrades {α : Type} (sg en ex st : List α → String) (data : List α)
    (steps : List Nat) :
    (Strategy.ofFuns sg en ex st).newTrades data steps =
      steps.flatMap fun k => tradeEntries (en (data.take k)) k
        ++ tradeEntries (ex (data.take k)) k ++ tradeEntries (st (data.take k)) k := by
  induction steps with
  | nil => rfl
  | cons k ks ih =>
    rw [Strategy.newTrades, ofFuns_after, ofFuns_dataAfter, ih, ofFuns_entryToken,
      ofFuns_exitToken, ofFuns_stopToken]
    rfl

theorem ofFuns_advance {α : Type} (sg en ex st : List α → String) (data : List α)
    (steps : List Nat) :
    (Strategy.ofFuns sg en ex st).advance data steps = (Strategy.ofFuns sg en ex st, data) := by
  induction steps with
  | nil => rfl
  | cons k ks ih => rw [Strategy.advance, ofFuns_after, ofFuns_dataAfter, ih]

theorem flatMap_signalEntries {α : Type} (sg : List α → String) (series : List α)
    (steps : List Nat) :
    (steps.flatMap fun k => signalEntries (sg (series.take k)) k) =
      steps.filterMap fun s =>
        if sg (series.take s) = "" then none
        else some { action := sg (series.take s), step := (s : Int) } := by
  induction steps with
  | nil => rfl
  | cons k ks ih =>
    rw [List.flatMap_cons, ih, List.filterMap_cons]
    by_cases h : sg (series.take k) = "" <;> simp [signalEntries, h]

theorem tradeEntries_triple (a b c : String) (k : Nat) :
    tradeEntries a k ++ tradeEntries b k ++ tradeEntries c k =
      ([{ order := a, step := (k : Int) }, { order := b, step := (k : Int) },
        { order := c, step := (k : Int) }] : List Trade).filter
        fun t => decide (t.order ≠ "") := by
  by_cases ha : a = "" <;> by_cases hb : b = "" <;> by_cases hc : c = "" <;>
    simp [tradeEntries, ha, hb, hc, List.filter]

theorem RunOn_ofFuns {α : Type} (sg en ex st : List α → String) (series : List α)
    (status : Status) :
    Backtest.RunOn series { strategy := some (Strategy.ofFuns sg en ex st), status := status } =
      Except.ok
        ({ step := status.step,
           signals := status.signals ++ refSignals sg series,
           trades := status.trades ++ refTrades en ex st series },
         { strategy := some (Strategy.ofFuns sg en ex st),
           status := { step := status.step,
                       signals := status.signals ++ refSignals sg series,
                       trades := status.trades ++ refTrades en ex st series } }) := by
  rw [RunOn_some, ofFuns_newSignals, ofFuns_newTrades, ofFuns_advance, flatMap_signalEntries]
  simp only [tradeEntries_triple]
  rfl

/-- C1: for every strategy given by four functions of the history and every
series, `Run` on a freshly constructed Backtest, its loop taken over that
series, returns, and the returned logs are the reference logs: the signals
are the non-empty Signaler results in increasing step order, the trades are
the non-empty Entryer, Exiter and Stopper results of each step in that
order. -/
theorem Run_logs_eq_reference {α : Type} (sg en ex st : List α → String) (series : List α) :
    ∃ r, Backtest.RunOn series (newBacktest (some (Strategy.ofFuns sg en ex st))) = Except.ok r ∧
      r.1.signals = refSignals sg series ∧ r.1.trades = refTrades en ex st series := by
  refine ⟨_, RunOn_ofFuns sg en ex st series newStatus, ?_, ?_⟩ <;> simp [newStatus]

@[simp] theorem after_Signaler {σ α : Type} (S : Strategy σ α) (data : List α) (k : Nat) :
    (S.after data k).Signaler = S.Signaler := rfl

@[simp] theorem after_Entryer {σ α : Type} (S : Strategy σ α) (data : List α) (k : Nat) :
    (S.after data k).Entryer = S.Entryer := rfl

@[simp] theorem after_Exiter {σ α : Type} (S : Strategy σ α) (data : List α) (k : Nat) :
    (S.after data k).Exiter = S.Exiter := rfl

@[simp] theorem after_Stopper {σ α : Type} (S : Strategy σ α) (data : List α) (k : Nat) :
    (S.after data k).Stopper = S.Stopper := rfl

theorem mem_signalEntries {sig : String} {k : Nat} {e : Signal} (h : e ∈ signalEntries sig k) :
    e.step = (k : Int) ∧ e.action = sig ∧ sig ≠ "" := by
  unfold signalEntries at h
  split at h
  · rename_i hs
    simp at h
    subst h
    exact ⟨rfl, rfl, hs⟩
  · simp at h

theorem mem_tradeEntries {t : String} {k : Nat} {e : Trade} (h : e ∈ tradeEntries t k) :
    e.step = (k : Int) ∧ e.order = t ∧ t ≠ "" := by
  unfold tradeEntries at h
  split at h
  · rename_i hs
    simp at h
    subst h
    exact ⟨rfl, rfl, hs⟩
  · simp at h

theorem mem_newSignals {σ α : Type} (steps : List Nat) :
    ∀ (data : List α) (S : Strategy σ α) (e : Signal), e ∈ S.newSignals data steps →
      ∃ k ∈ steps, e.step = (k : Int) ∧ e.action ≠ "" := by
  induction steps with
  | nil => intro data S e h; simp [Strategy.newSignals] at h
  | cons k ks ih =>
    intro data S e h
    rw [Strategy.newSignals, List.mem_append] at h
    rcases h with h | h
    · obtain ⟨h1, h2, h3⟩ := mem_signalEntries h
      exact ⟨k, List.mem_cons_self k ks, h1, by rw [h2]; exact h3⟩
    · obtain ⟨j, hj, hj2⟩ := ih _ _ e h
      exact ⟨j, List.mem_cons_of_mem k hj, hj2⟩

theorem mem_newTrades {σ α : Type} (steps : List Nat) :
    ∀ (data : List α) (S : Strategy σ α) (e : Trade), e ∈ S.newTrades data steps →
      ∃ k ∈ steps, e.step = (k : Int) ∧ e.order ≠ "" := by
  induction steps with
  | nil => intro data S e h; simp [Strategy.newTrades] at h
  | cons k ks ih =>
    intro data S e h
    rw [Strategy.newTrades] at h
    simp only [List.mem_append] at h
    rcases h with ((h | h) | h) | h
    · obtain ⟨h1, h2, h3⟩ := mem_tradeEntries h
      exact ⟨k, List.mem_cons_self k ks, h1, by rw [h2]; exact h3⟩
    · obtain ⟨h1, h2, h3⟩ := mem_tradeEntries h
      exact ⟨k, List.mem_cons_self k ks, h1, by rw [h2]; exact h3⟩
    · obtain ⟨h1, h2, h3⟩ := mem_tradeEntries h
      exact ⟨k, List.mem_cons_self k ks, h1, by rw [h2]; exact h3⟩
    · obtain ⟨j, hj, hj2⟩ := ih _ _ e h
      exact ⟨j, List.mem_cons_of_mem k hj, hj2⟩

theorem advance_append {σ α : Type} (l1 l2 : List Nat) :
    ∀ (data : List α) (S : Strategy σ α), S.advance data (l1 ++ l2) =
      (S.advance data l1).1.advance (S.advance data l1).2 l2 := by
  induction l1 with
  | nil => intro data S; rfl
  | cons k ks ih => intro data S; simp [Strategy.advance, ih]

theorem newSignals_append {σ α : Type} (l1 l2 : List Nat) :
    ∀ (data : List α) (S : Strategy σ α), S.newSignals data (l1 ++ l2) =
      S.newSignals data l1 ++ (S.advance data l1).1.newSignals (S.advance data l1).2 l2 := by
  induction l1 with
  | nil => intro data S; rfl
  | cons k ks ih => intro data S; simp [Strategy.newSignals, Strategy.advance, ih]

theorem newTrades_append {σ α : Type} (l1 l2 : List Nat) :
    ∀ (data : List α) (S : Strategy σ α), S.newTrades data (l1 ++ l2) =
      S.newTrades data l1 ++ (S.advance data l1).1.newTrades (S.advance data l1).2 l2 := by
  induction l1 with
  | nil => intro data S; rfl
  | cons k ks ih => intro data S; simp [Strategy.newTrades, Strategy.advance, ih]

theorem take_eq_of_agree {α : Type} {d1 d2 : List α} {s : Nat}
    (hagree : ∀ i : Nat, i < s → d1[i]? = d2[i]?) {k : Nat} (hk : k ≤ s) :
    d1.take k = d2.take k := by
  apply List.ext_getElem?
  intro i
  by_cases hi : i < k
  · rw [List.getElem?_take_of_lt hi, List.getElem?_take_of_lt hi]
    exact hagree i (Nat.lt_of_lt_of_le hi hk)
  · rw [List.getElem?_take_eq_none (Nat.le_of_not_lt hi),
      List.getElem?_take_eq_none (Nat.le_of_not_lt hi)]

theorem take_applyWrites {α : Type} (s : Nat) (writes : List (Nat × α)) :
    ∀ d : List α, (applyWrites d writes).take s = applyWrites (d.take s) writes := by
  induction writes with
  | nil => intro d; rfl
  | cons w ws ih =>
    intro d
    simp only [applyWrites, List.foldl_cons] at ih ⊢
    rw [ih, List.set_take]

theorem call_congr {σ α : Type} {op : σ → Slice α → String × σ × List (Nat × α)}
    (hop : ReadsVisibleOnly op) (st : σ) {d1 d2 : List α} {k s : Nat} (hk : k ≤ s)
    (hL : d1.length = d2.length) (hT : d1.take s = d2.take s) :
    op st (sliceTo d1 k) = op st (sliceTo d2 k) ∧
      (applyWrites d1 (op st (sliceTo d1 k)).2.2).length =
        (applyWrites d2 (op st (sliceTo d2 k)).2.2).length ∧
      (applyWrites d1 (op st (sliceTo d1 k)).2.2).take s =
        (applyWrites d2 (op st (sliceTo d2 k)).2.2).take s := by
  have hvis : (sliceTo d1 k).visible = (sliceTo d2 k).visible := by
    have h1 : d1.take k = (d1.take s).take k := by
      rw [List.take_take, Nat.min_eq_left hk]
    have h2 : d2.take k = (d2.take s).take k := by
      rw [List.take_take, Nat.min_eq_left hk]
    rw [sliceTo_visible, sliceTo_visible, h1, h2, hT]
  have hlen : (sliceTo d1 k).len = (sliceTo d2 k).len := by
    simp [sliceTo, hL]
  have hcall := hop st (sliceTo d1 k) (sliceTo d2 k) hlen hvis
  refine ⟨hcall, ?_, ?_⟩
  · rw [length_applyWrites, length_applyWrites, hL]
  · rw [take_applyWrites, take_applyWrites, hcall, hT]

theorem iteration_congr {σ α : Type} (S : Strategy σ α) (h1 : ReadsVisibleOnly S.Signaler)
    (h2 : ReadsVisibleOnly S.Entryer) (h3 : ReadsVisibleOnly S.Exiter)
    (h4 : ReadsVisibleOnly S.Stopper) {d1 d2 : List α} {k s : Nat} (hk : k ≤ s)
    (hL : d1.length = d2.length) (hT : d1.take s = d2.take s) :
    S.sigCall d1 k = S.sigCall d2 k ∧ S.entryCall d1 k = S.entryCall d2 k ∧
      S.exitCall d1 k = S.exitCall d2 k ∧ S.stopCall d1 k = S.stopCall d2 k ∧
      (S.dataAfter d1 k).length = (S.dataAfter d2 k).length ∧
      (S.dataAfter d1 k).take s = (S.dataAfter d2 k).take s := by
  obtain ⟨c1, l1, t1⟩ := call_congr h1 S.state hk hL hT
  have e1 : S.sigCall d1 k = S.sigCall d2 k := c1
  have v1 : (S.dataSig d1 k).length = (S.dataSig d2 k).length := l1
  have u1 : (S.dataSig d1 k).take s = (S.dataSig d2 k).take s := t1
  obtain ⟨c2, l2, t2⟩ := call_congr h2 (S.sigCall d1 k).2.1 hk v1 u1
  have e2 : S.entryCall d1 k = S.entryCall d2 k := by
    unfold Strategy.entryCall
    rw [← e1]
    exact c2
  have v2 : (S.dataEntry d1 k).length = (S.dataEntry d2 k).length := by
    unfold Strategy.dataEntry Strategy.entryCall
    rw [← e1]
    exact l2
  have u2 : (S.dataEntry d1 k).take s = (S.dataEntry d2 k).take s := by
    unfold Strategy.dataEntry Strategy.entryCall
    rw [← e1]
    exact t2
  obtain ⟨c3, l3, t3⟩ := call_congr h3 (S.entryCall d1 k).2.1 hk v2 u2
  have e3 : S.exitCall d1 k = S.exitCall d2 k := by
    unfold Strategy.exitCall
    rw [← e2]
    exact c3
  have v3 : (S.dataExit d1 k).length = (S.dataExit d2 k).length := by
    unfold Strategy.dataExit Strategy.exitCall
    rw [← e2]
    exact l3
  have u3 : (S.dataExit d1 k).take s = (S.dataExit d2 k).take s := by
    unfold Strategy.dataExit Strategy.exitCall
    rw [← e2]
    exact t3
  obtain ⟨c4, l4, t4⟩ := call_congr h4 (S.exitCall d1 k).2.1 hk v3 u3
  have e4 : S.stopCall d1 k = S.stopCall d2 k := by
    unfold Strategy.stopCall
    rw [← e3]
    exact c4
  have v4 : (S.dataAfter d1 k).length = (S.dataAfter d2 k).length := by
    unfold Strategy.dataAfter Strategy.stopCall
    rw [← e3]
    exact l4
  have u4 : (S.dataAfter d1 k).take s = (S.dataAfter d2 k).take s := by
    unfold Strategy.dataAfter Strategy.stopCall
    rw [← e3]
    exact t4
  exact ⟨e1, e2, e3, e4, v4, u4⟩

theorem logs_congr {σ α : Type} (s : Nat) (steps : List Nat) (hsteps : ∀ k ∈ steps, k ≤ s) :
    ∀ (S : Strategy σ α) (d1 d2 : List α), ReadsVisibleOnly S.Signaler →
      ReadsVisibleOnly S.Entryer → ReadsVisibleOnly S.Exiter → ReadsVisibleOnly S.Stopper →
      d1.length = d2.length → d1.take s = d2.take s →
      S.newSignals d1 steps = S.newSignals d2 steps ∧
        S.newTrades d1 steps = S.newTrades d2 steps := by
  induction steps with
  | nil => intro S d1 d2 _ _ _ _ _ _; exact ⟨rfl, rfl⟩
  | cons k ks ih =>
    intro S d1 d2 h1 h2 h3 h4 hL hT
    obtain ⟨e1, e2, e3, e4, v, u⟩ :=
      iteration_congr S h1 h2 h3 h4 (hsteps k (List.mem_cons_self k ks)) hL hT
    have hafter : S.after d1 k = S.after d2 k := by
      simp [Strategy.after, e4]
    obtain ⟨i1, i2⟩ := ih (fun j hj => hsteps j (List.mem_cons_of_mem k hj)) (S.after d1 k)
      (S.dataAfter d1 k) (S.dataAfter d2 k) h1 h2 h3 h4 v u
    constructor
    · rw [Strategy.newSignals, Strategy.newSignals, i1, ← hafter]
      simp [Strategy.sigToken, e1]
    · rw [Strategy.newTrades, Strategy.newTrades, i2, ← hafter]
      simp [Strategy.entryToken, Strategy.exitToken, Strategy.stopToken, e2, e3, e4]

theorem filter_newSignals_from {σ α : Type} (S : Strategy σ α) (data : List α) (s : Nat)
    (steps : List Nat) (h : ∀ k ∈ steps, s ≤ k) :
    (S.newSignals data steps).filter (fun e => decide (e.step < (s : Int))) = [] := by
  rw [List.filter_eq_nil_iff]
  intro e he
  obtain ⟨k, hk, hstep, _⟩ := mem_newSignals steps data S e he
  have := h k hk
  simp [hstep]
  exact_mod_cast this

theorem filter_newTrades_from {σ α : Type} (S : Strategy σ α) (data : List α) (s : Nat)
    (steps : List Nat) (h : ∀ k ∈ steps, s ≤ k) :
    (S.newTrades data steps).filter (fun e => decide (e.step < (s : Int))) = [] := by
  rw [List.filter_eq_nil_iff]
  intro e he
  obtain ⟨k, hk, hstep, _⟩ := mem_newTrades steps data S e he
  have := h k hk
  simp [hstep]
  exact_mod_cast this

theorem range_split (s n : Nat) (h : s ≤ n) :
    List.range n = List.range s ++ (List.range (n - s)).map (s + ·) := by
  rw [← List.range_add, Nat.add_sub_cancel' h]

theorem causal_logs {σ α : Type} (S : Strategy σ α) (s : Nat) (d1 d2 : List α)
    (hlen : d1.length = d2.length) (hagree : ∀ i : Nat, i < s → d1[i]? = d2[i]?)
    (h1 : ReadsVisibleOnly S.Signaler) (h2 : ReadsVisibleOnly S.Entryer)
    (h3 : ReadsVisibleOnly S.Exiter) (h4 : ReadsVisibleOnly S.Stopper) :
    (S.newSignals d1 (List.range d1.length)).filter (fun e => decide (e.step < (s : Int))) =
        (S.newSignals d2 (List.range d2.length)).filter (fun e => decide (e.step < (s : Int))) ∧
      (S.newTrades d1 (List.range d1.length)).filter (fun e => decide (e.step < (s : Int))) =
        (S.newTrades d2 (List.range d2.length)).filter (fun e => decide (e.step < (s : Int))) := by
  rw [← hlen]
  have hT : d1.take s = d2.take s := take_eq_of_agree hagree (Nat.le_refl s)
  by_cases hs : s ≤ d1.length
  · have hpre : ∀ k ∈ List.range s, k ≤ s := fun k hk => Nat.le_of_lt (List.mem_range.mp hk)
    have hrest : ∀ k ∈ (List.range (d1.length - s)).map (s + ·), s ≤ k := by
      intro k hk
      obtain ⟨j, _, rfl⟩ := List.mem_map.mp hk
      exact Nat.le_add_right s j
    obtain ⟨i1, i2⟩ := logs_congr s (List.range s) hpre S d1 d2 h1 h2 h3 h4 hlen hT
    rw [range_split s d1.length hs, newSignals_append, newSignals_append, newTrades_append,
      newTrades_append, List.filter_append, List.filter_append, List.filter_append,
      List.filter_append, filter_newSignals_from _ _ s _ hrest,
      filter_newSignals_from _ _ s _ hrest, filter_newTrades_from _ _ s _ hrest,
      filter_newTrades_from _ _ s _ hrest, i1, i2]
    exact ⟨rfl, rfl⟩
  · have hall : ∀ k ∈ List.range d1.length, k ≤ s := fun k hk =>
      Nat.le_of_lt (Nat.lt_trans (List.mem_range.mp hk) (Nat.lt_of_not_le hs))
    obtain ⟨i1, i2⟩ := logs_congr s _ hall S d1 d2 h1 h2 h3 h4 hlen hT
    rw [i1, i2]
    exact ⟨rfl, rfl⟩

theorem ofFuns_readsVisibleOnly {α : Type} (sg en ex st : List α → String) :
    ReadsVisibleOnly (Strategy.ofFuns sg en ex st).Signaler ∧
      ReadsVisibleOnly (Strategy.ofFuns sg en ex st).Entryer ∧
      ReadsVisibleOnly (Strategy.ofFuns sg en ex st).Exiter ∧
      ReadsVisibleOnly (Strategy.ofFuns sg en ex st).Stopper := by
  refine ⟨?_, ?_, ?_, ?_⟩ <;> intro s h1 h2 _ hv <;> simp [Strategy.ofFuns, hv]

/-- C2, the claim refuted at two series that agree below index 2: the
Signaler of `peekAhead` reslices the history it is given to its capacity and
reads the element of index 2 of the series, so `Run` over `[1, 9, 3, 4]` and
over `[1, 9, 8, 4]` records different signals for the steps 0 and 1. -/
theorem Run_not_causal :
    ([1, 9, 3, 4] : List Nat).length = [1, 9, 8, 4].length ∧
      (∀ i : Nat, i < 2 → ([1, 9, 3, 4] : List Nat)[i]? = ([1, 9, 8, 4] : List Nat)[i]?) ∧
      ∃ r1 r2, Backtest.RunOn [1, 9, 3, 4] (newBacktest (some peekAhead)) = Except.ok r1 ∧
        Backtest.RunOn [1, 9, 8, 4] (newBacktest (some peekAhead)) = Except.ok r2 ∧
        r1.1.signals.filter (fun e => decide (e.step < ((2 : Nat) : Int))) =
          [{ action := "Sell", step := 0 }, { action := "Sell", step := 1 }] ∧
        r2.1.signals.filter (fun e => decide (e.step < ((2 : Nat) : Int))) =
          [{ action := "Long", step := 0 }, { action := "Long", step := 1 }] ∧
        r1.1.signals.filter (fun e => decide (e.step < ((2 : Nat) : Int))) ≠
          r2.1.signals.filter (fun e => decide (e.step < ((2 : Nat) : Int))) :=
  ⟨rfl, fun i hi => by interval_cases i <;> rfl, _, _, rfl, rfl, by decide, by decide,
    by decide⟩

/-- C2 as amended (causality): for every strategy whose four operations are
determined by the state of their receiver and the elements `h[0:len(h)]` of
the history they are given, every `s` and every two series of the same length
that agree on all indices below `s`, `Run` on a fresh Backtest returns for
both series, and the entries with step below `s` of the signals log and of
the trades log are the same for the two series. -/
theorem Run_causal {σ α : Type} (S : Strategy σ α) (s : Nat) (d1 d2 : List α)
    (hlen : d1.length = d2.length) (hagree : ∀ i : Nat, i < s → d1[i]? = d2[i]?)
    (h1 : ReadsVisibleOnly S.Signaler) (h2 : ReadsVisibleOnly S.Entryer)
    (h3 : ReadsVisibleOnly S.Exiter) (h4 : ReadsVisibleOnly S.Stopper) :
    ∃ r1 r2, Backtest.RunOn d1 (newBacktest (some S)) = Except.ok r1 ∧
      Backtest.RunOn d2 (newBacktest (some S)) = Except.ok r2 ∧
      r1.1.signals.filter (fun e => decide (e.step < (s : Int))) =
        r2.1.signals.filter (fun e => decide (e.step < (s : Int))) ∧
      r1.1.trades.filter (fun e => decide (e.step < (s : Int))) =
        r2.1.trades.filter (fun e => decide (e.step < (s : Int))) := by
  refine ⟨_, _, RunOn_some d1 S newStatus, RunOn_some d2 S newStatus, ?_, ?_⟩
  · simpa [newStatus] using (causal_logs S s d1 d2 hlen hagree h1 h2 h3 h4).1
  · simpa [newStatus] using (causal_logs S s d1 d2 hlen hagree h1 h2 h3 h4).2

/-- The causality theorem at the series `[1, 9, 3, 4]` and `[1, 9, 8, 4]`, which
agree below index 2, for the strategy `lastAbove`. -/
theorem Run_causal_witness :
    ([1, 9, 3, 4] : List Nat).length = [1, 9, 8, 4].length ∧
      (∀ i : Nat, i < 2 → ([1, 9, 3, 4] : List Nat)[i]? = ([1, 9, 8, 4] : List Nat)[i]?) ∧
      ReadsVisibleOnly lastAbove.Signaler ∧ ReadsVisibleOnly lastAbove.Entryer ∧
      ReadsVisibleOnly lastAbove.Exiter ∧ ReadsVisibleOnly lastAbove.Stopper ∧
      ∃ r1 r2, Backtest.RunOn [1, 9, 3, 4] (newBacktest (some lastAbove)) = Except.ok r1 ∧
        Backtest.RunOn [1, 9, 8, 4] (newBacktest (some lastAbove)) = Except.ok r2 ∧
        r1.1.signals.filter (fun e => decide (e.step < ((2 : Nat) : Int))) =
          r2.1.signals.filter (fun e => decide (e.step < ((2 : Nat) : Int))) ∧
        r1.1.trades.filter (fun e => decide (e.step < ((2 : Nat) : Int))) =
          r2.1.trades.filter (fun e => decide (e.step < ((2 : Nat) : Int))) :=
  ⟨rfl, fun i hi => by interval_cases i <;> rfl,
    (ofFuns_readsVisibleOnly _ _ _ _).1, (ofFuns_readsVisibleOnly _ _ _ _).2.1,
    (ofFuns_readsVisibleOnly _ _ _ _).2.2.1, (ofFuns_readsVisibleOnly _ _ _ _).2.2.2,
    Run_causal lastAbove 2 [1, 9, 3, 4] [1, 9, 8, 4] rfl (fun i hi => by interval_cases i <;> rfl)
      (ofFuns_readsVisibleOnly _ _ _ _).1 (ofFuns_readsVisibleOnly _ _ _ _).2.1
      (ofFuns_readsVisibleOnly _ _ _ _).2.2.1 (ofFuns_readsVisibleOnly _ _ _ _).2.2.2⟩

/-- C3 (empty input): `Run` as written, whose series is the empty slice, on a
freshly constructed Backtest returns without failure the Status with step 0
and two empty logs, for every strategy value, the nil interface included, and
it leaves the Backtest and the receiver of its strategy as they were; on a
call-counting strategy the counter is still 0 after the run, so no strategy
operation was called. -/
theorem Run_empty_series {σ α : Type} (strategy : Option (Strategy σ α)) (S : Strategy σ α) :
    Backtest.Run (newBacktest strategy) =
        Except.ok ({ step := 0, signals := [], trades := [] }, newBacktest strategy) ∧
      ∃ r, Backtest.Run (newBacktest (some S.counting)) = Except.ok r ∧
        r.1 = { step := 0, signals := [], trades := [] } ∧
        r.2.strategy.map (fun T => T.state.2) = some 0 :=
  ⟨rfl, _, rfl, rfl, rfl⟩

/-- The loop leaves the `step` field of the Status as it found it. -/
theorem RunOn_step {σ α : Type} (data : List α) (S : Strategy σ α) (status : Status) :
    ∃ r, Backtest.RunOn data { strategy := some S, status := status } = Except.ok r ∧
      r.1.step = status.step :=
  ⟨_, RunOn_some data S status, rfl⟩

/-- C4 (step counter), the code at a series of length 3: `Run` with its loop
taken over `[1, 9, 3]` visits the three steps and returns, and the `step`
field of the returned Status is still 0, not 3; the loop never writes
`b.status.step`. -/
theorem Run_step_not_advanced :
    ∃ r, Backtest.RunOn [1, 9, 3] (newBacktest (some lastAbove)) = Except.ok r ∧
      r.1.signals.length = 3 ∧ r.1.step = 0 ∧
      r.1.step ≠ (([1, 9, 3] : List Nat).length : Int) :=
  ⟨_, rfl, by decide, rfl, by decide⟩

theorem pairwise_newSignals {σ α : Type} (steps : List Nat) :
    steps.Pairwise (· ≤ ·) → ∀ (data : List α) (S : Strategy σ α),
      (S.newSignals data steps).Pairwise (fun a b => a.step ≤ b.step) := by
  induction steps with
  | nil => intro _ data S; simp [Strategy.newSignals]
  | cons k ks ih =>
    intro hp data S
    rw [List.pairwise_cons] at hp
    rw [Strategy.newSignals, List.pairwise_append]
    refine ⟨?_, ih hp.2 _ _, ?_⟩
    · unfold signalEntries
      split <;> simp
    · intro a ha b hb
      obtain ⟨hka, _⟩ := mem_signalEntries ha
      obtain ⟨j, hj, hjb, _⟩ := mem_newSignals ks _ _ b hb
      rw [hka, hjb]
      exact_mod_cast hp.1 j hj

theorem pairwise_stepEntries (a b c : String) (k : Nat) :
    (tradeEntries a k ++ tradeEntries b k ++ tradeEntries c k).Pairwise
      (fun x y => x.step ≤ y.step) := by
  rw [List.pairwise_iff_forall_sublist]
  intro x y h
  have hx : x ∈ tradeEntries a k ++ tradeEntries b k ++ tradeEntries c k :=
    h.subset (List.mem_cons_self x [y])
  have hy : y ∈ tradeEntries a k ++ tradeEntries b k ++ tradeEntries c k :=
    h.subset (List.mem_cons_of_mem x (List.mem_cons_self y []))
  have step_of : ∀ z : Trade, z ∈ tradeEntries a k ++ tradeEntries b k ++ tradeEntries c k →
      z.step = (k : Int) := by
    intro z hz
    simp only [List.mem_append] at hz
    rcases hz with (hz | hz) | hz <;> exact (mem_tradeEntries hz).1
  rw [step_of x hx, step_of y hy]

theorem pairwise_newTrades {σ α : Type} (steps : List Nat) :
    steps.Pairwise (· ≤ ·) → ∀ (data : List α) (S : Strategy σ α),
      (S.newTrades data steps).Pairwise (fun a b => a.step ≤ b.step) := by
  induction steps with
  | nil => intro _ data S; simp [Strategy.newTrades]
  | cons k ks ih =>
    intro hp data S
    rw [List.pairwise_cons] at hp
    rw [Strategy.newTrades, List.pairwise_append]
    refine ⟨pairwise_stepEntries _ _ _ k, ih hp.2 _ _, ?_⟩
    intro a ha b hb
    have hka : a.step = (k : Int) := by
      simp only [List.mem_append] at ha
      rcases ha with (ha | ha) | ha <;> exact (mem_tradeEntries ha).1
    obtain ⟨j, hj, hjb, _⟩ := mem_newTrades ks _ _ b hb
    rw [hka, hjb]
    exact_mod_cast hp.1 j hj

/-- C5 (ordering): for every strategy and every series, `Run` on a freshly
constructed Backtest returns, and in the returned signals log and in the
returned trades log every entry has a step less than or equal to the step of
the entry that follows it. -/
theorem Run_logs_nondecreasing {σ α : Type} (S : Strategy σ α) (series : List α) :
    ∃ r, Backtest.RunOn series (newBacktest (some S)) = Except.ok r ∧
      List.Chain' (fun a b : Signal => a.step ≤ b.step) r.1.signals ∧
      List.Chain' (fun a b : Trade => a.step ≤ b.step) r.1.trades := by
  refine ⟨_, RunOn_some series S newStatus, ?_, ?_⟩
  · simpa [newStatus] using
      (pairwise_newSignals _ (List.pairwise_le_range series.length) series S).chain'
  · simpa [newStatus] using
      (pairwise_newTrades _ (List.pairwise_le_range series.length) series S).chain'

/-- C6, the claim refuted at a series of length 1: with the loop taken over
`[1]`, the first `Run` on a fresh Backtest returns the signals log
`[Signal{"Sell", 0}]`, and the second `Run` on the same Backtest returns
`[Signal{"Sell", 0}, Signal{"Sell", 0}]`, a different log. -/
theorem Run_twice_differs :
    ∃ r1 r2, Backtest.RunOn [1] (newBacktest (some lastAbove)) = Except.ok r1 ∧
      Backtest.RunOn [1] r1.2 = Except.ok r2 ∧
      r1.1.signals = [{ action := "Sell", step := 0 }] ∧
      r2.1.signals = [{ action := "Sell", step := 0 }, { action := "Sell", step := 0 }] ∧
      r2.1.signals ≠ r1.1.signals :=
  ⟨_, _, rfl, rfl, rfl, rfl, by decide⟩

/-- C6 as amended: for every strategy given by four functions of the history
and every series, two calls of `Run` in succession on the same Backtest, the
first on a fresh one, both return; the second call returns the logs of the
first call followed by the same entries once more, so the logs of the two
calls are equal exactly when those of the first call are empty; with the
series `Run` is written with, the empty slice, the second call returns the
same Status as the first. -/
theorem Run_twice_appends {α : Type} (sg en ex st : List α → String) (series : List α) :
    (∃ r1 r2,
      Backtest.RunOn series (newBacktest (some (Strategy.ofFuns sg en ex st))) = Except.ok r1 ∧
      Backtest.RunOn series r1.2 = Except.ok r2 ∧
      r2.1.signals = r1.1.signals ++ r1.1.signals ∧
      r2.1.trades = r1.1.trades ++ r1.1.trades ∧
      (r2.1.signals = r1.1.signals ↔ r1.1.signals = []) ∧
      (r2.1.trades = r1.1.trades ↔ r1.1.trades = [])) ∧
    (∃ q1 q2,
      Backtest.Run (newBacktest (some (Strategy.ofFuns sg en ex st))) = Except.ok q1 ∧
      Backtest.Run q1.2 = Except.ok q2 ∧ q2.1 = q1.1) := by
  refine ⟨⟨_, _, RunOn_ofFuns sg en ex st series newStatus, RunOn_ofFuns sg en ex st series _,
    ?_, ?_, ?_, ?_⟩, ⟨_, _, rfl, rfl, rfl⟩⟩ <;> simp [newStatus]

theorem newSignals_range_succ {σ α : Type} (S : Strategy σ α) (data : List α) (n : Nat) :
    S.newSignals data (List.range (n + 1)) =
      S.newSignals data (List.range n)
        ++ signalEntries ((S.atStep data n).1.sigToken (S.atStep data n).2 n) n := by
  rw [List.range_succ, newSignals_append]
  simp [Strategy.newSignals, Strategy.atStep]

theorem newTrades_range_succ {σ α : Type} (S : Strategy σ α) (data : List α) (n : Nat) :
    S.newTrades data (List.range (n + 1)) =
      S.newTrades data (List.range n)
        ++ (tradeEntries ((S.atStep data n).1.entryToken (S.atStep data n).2 n) n
          ++ tradeEntries ((S.atStep data n).1.exitToken (S.atStep data n).2 n) n
          ++ tradeEntries ((S.atStep data n).1.stopToken (S.atStep data n).2 n) n) := by
  rw [List.range_succ, newTrades_append]
  simp [Strategy.newTrades, Strategy.atStep]

theorem mem_newSignals_range {σ α : Type} (S : Strategy σ α) (data : List α) (e : Signal) :
    ∀ n : Nat, e ∈ S.newSignals data (List.range n) →
      e.action ≠ "" ∧ ∃ k, k < n ∧
        e = { action := (S.atStep data k).1.sigToken (S.atStep data k).2 k, step := (k : Int) } := by
  intro n
  induction n with
  | zero => intro h; simp [Strategy.newSignals] at h
  | succ n ih =>
    intro h
    rw [newSignals_range_succ, List.mem_append] at h
    rcases h with h | h
    · obtain ⟨hne, k, hk, hek⟩ := ih h
      exact ⟨hne, k, Nat.lt_succ_of_lt hk, hek⟩
    · obtain ⟨h1, h2, h3⟩ := mem_signalEntries h
      refine ⟨by rw [h2]; exact h3, n, Nat.lt_succ_self n, ?_⟩
      cases e
      simp_all

theorem mem_newTrades_range {σ α : Type} (S : Strategy σ α) (data : List α) (t : Trade) :
    ∀ n : Nat, t ∈ S.newTrades data (List.range n) →
      t.order ≠ "" ∧ ∃ k, k < n ∧
        (t = { order := (S.atStep data k).1.entryToken (S.atStep data k).2 k, step := (k : Int) } ∨
          t = { order := (S.atStep data k).1.exitToken (S.atStep data k).2 k, step := (k : Int) } ∨
          t = { order := (S.atStep data k).1.stopToken (S.atStep data k).2 k,
                step := (k : Int) }) := by
  intro n
  induction n with
  | zero => intro h; simp [Strategy.newTrades] at h
  | succ n ih =>
    intro h
    rw [newTrades_range_succ] at h
    simp only [List.mem_append] at h
    rcases h with h | (h | h) | h
    · obtain ⟨hne, k, hk, hek⟩ := ih h
      exact ⟨hne, k, Nat.lt_succ_of_lt hk, hek⟩
    · obtain ⟨h1, h2, h3⟩ := mem_tradeEntries h
      refine ⟨by rw [h2]; exact h3, n, Nat.lt_succ_self n, Or.inl ?_⟩
      cases t
      simp_all
    · obtain ⟨h1, h2, h3⟩ := mem_tradeEntries h
      refine ⟨by rw [h2]; exact h3, n, Nat.lt_succ_self n, Or.inr (Or.inl ?_)⟩
      cases t
      simp_all
    · obtain ⟨h1, h2, h3⟩ := mem_tradeEntries h
      refine ⟨by rw [h2]; exact h3, n, Nat.lt_succ_self n, Or.inr (Or.inr ?_)⟩
      cases t
      simp_all

/-- C7, the claim refuted at a series of length 1: the Exiter of `exiterLong`
answers "Long" at step 0, a token outside the Exiter's contract set, and
`Run` with its loop taken over `[1]` reports no failure and returns the
trades log `[Trade{"Long", 0}]`, an entry carrying that token. -/
theorem Run_records_invalid_token :
    (exiterLong.Exiter exiterLong.state (sliceTo [1] 0)).1 = "Long" ∧
      "Long" ∉ exiterTokens ∧
      ∃ r, Backtest.RunOn [1] (newBacktest (some exiterLong)) = Except.ok r ∧
        r.1.trades = [{ order := "Long", step := 0 }] :=
  ⟨rfl, by decide, _, rfl, rfl⟩

/-- C7 as amended: `Run` has no failure for a token.  For every series and
every non-nil strategy, with or without receiver state, whose operations
return, `Run` on a fresh Backtest returns its Status whatever tokens the
operations return, and every entry of a returned log carries a non-empty
token, the one the operation that produced the entry returned in the
iteration of the entry's step: a signal of step `k` carries the token of the
Signaler in iteration `k`, a trade of step `k` the token of the Entryer, the
Exiter or the Stopper in iteration `k`. -/
theorem Run_no_token_failure {σ α : Type} (S : Strategy σ α) (series : List α) :
    ∃ r, Backtest.RunOn series (newBacktest (some S)) = Except.ok r ∧
      (∀ e ∈ r.1.signals, e.action ≠ "" ∧
        ∃ k, k < series.length ∧
          e = { action := (S.atStep series k).1.sigToken (S.atStep series k).2 k,
                step := (k : Int) }) ∧
      (∀ t ∈ r.1.trades, t.order ≠ "" ∧
        ∃ k, k < series.length ∧
          (t = { order := (S.atStep series k).1.entryToken (S.atStep series k).2 k,
                 step := (k : Int) } ∨
            t = { order := (S.atStep series k).1.exitToken (S.atStep series k).2 k,
                  step := (k : Int) } ∨
            t = { order := (S.atStep series k).1.stopToken (S.atStep series k).2 k,
                  step := (k : Int) })) := by
  refine ⟨_, RunOn_some series S newStatus, ?_, ?_⟩
  · intro e he
    simp only [newStatus, List.nil_append] at he
    exact mem_newSignals_range S series e series.length he
  · intro t ht
    simp only [newStatus, List.nil_append] at ht
    exact mem_newTrades_range S series t series.length ht

theorem signalEntries_empty (k : Nat) : signalEntries "" k = [] := by
  simp [signalEntries]

theorem tradeEntries_empty (k : Nat) : tradeEntries "" k = [] := by
  simp [tradeEntries]

theorem newSignals_noAction {σ α : Type} (steps : List Nat) :
    ∀ (data : List α) (S : Strategy σ α), (∀ s h, (S.Signaler s h).1 = "") →
      S.newSignals data steps = [] := by
  induction steps with
  | nil => intro data S _; rfl
  | cons k ks ih =>
    intro data S h
    rw [Strategy.newSignals, Strategy.sigToken, Strategy.sigCall, h, signalEntries_empty,
      ih _ _ (by simpa using h)]
    rfl

theorem newTrades_noAction {σ α : Type} (steps : List Nat) :
    ∀ (data : List α) (S : Strategy σ α), (∀ s h, (S.Entryer s h).1 = "") →
      (∀ s h, (S.Exiter s h).1 = "") → (∀ s h, (S.Stopper s h).1 = "") →
      S.newTrades data steps = [] := by
  induction steps with
  | nil => intro data S _ _ _; rfl
  | cons k ks ih =>
    intro data S h1 h2 h3
    rw [Strategy.newTrades, Strategy.entryToken, Strategy.exitToken, Strategy.stopToken,
      Strategy.entryCall, Strategy.exitCall, Strategy.stopCall, h1, h2, h3, tradeEntries_empty,
      ih _ _ (by simpa using h1) (by simpa using h2) (by simpa using h3)]
    rfl

/-- C8 (no-action filtering): for every series and every strategy whose four
operations return the no-action value (the empty string) on every history,
whatever the state of their receiver, `Run` on a fresh Backtest returns a
signals log of length 0 and a trades log of length 0. -/
theorem Run_noAction_logs_empty {σ α : Type} (S : Strategy σ α) (series : List α)
    (hsg : ∀ s h, (S.Signaler s h).1 = "") (hen : ∀ s h, (S.Entryer s h).1 = "")
    (hex : ∀ s h, (S.Exiter s h).1 = "") (hst : ∀ s h, (S.Stopper s h).1 = "") :
    ∃ r, Backtest.RunOn series (newBacktest (some S)) = Except.ok r ∧
      r.1.signals.length = 0 ∧ r.1.trades.length = 0 := by
  refine ⟨_, RunOn_some series S newStatus, ?_, ?_⟩
  · simp [newStatus, newSignals_noAction _ series S hsg]
  · simp [newStatus, newTrades_noAction _ series S hen hex hst]

/-- The no-action theorem at the strategy `noAction` and a series of length 4. -/
theorem Run_noAction_logs_empty_witness :
    (∀ s h, (noAction.Signaler s h).1 = "") ∧ (∀ s h, (noAction.Entryer s h).1 = "") ∧
      (∀ s h, (noAction.Exiter s h).1 = "") ∧ (∀ s h, (noAction.Stopper s h).1 = "") ∧
      ∃ r, Backtest.RunOn [4, 8, 15, 16] (newBacktest (some noAction)) = Except.ok r ∧
        r.1.signals.length = 0 ∧ r.1.trades.length = 0 :=
  ⟨fun _ _ => rfl, fun _ _ => rfl, fun _ _ => rfl, fun _ _ => rfl,
    Run_noAction_logs_empty noAction [4, 8, 15, 16] (fun _ _ => rfl) (fun _ _ => rfl)
      (fun _ _ => rfl) (fun _ _ => rfl)⟩

/-- C9 (concrete scenario): for every series of length 3 and every strategy
whose Signaler and Entryer return "Long" exactly on a history of length 1 and
the no-action value otherwise, and whose Exiter and Stopper always return the
no-action value, `Run` on a fresh Backtest returns
`signals = [Signal{"Long", 1}]` and `trades = [Trade{"Long", 1}]`. -/
theorem Run_scenario {σ α : Type} (S : Strategy σ α) (series : List α)
    (hlen : series.length = 3)
    (hsg : ∀ s h, (S.Signaler s h).1 = if h.len = 1 then "Long" else "")
    (hen : ∀ s h, (S.Entryer s h).1 = if h.len = 1 then "Long" else "")
    (hex : ∀ s h, (S.Exiter s h).1 = "") (hst : ∀ s h, (S.Stopper s h).1 = "") :
    ∃ r, Backtest.RunOn series (newBacktest (some S)) = Except.ok r ∧
      r.1.signals = [{ action := "Long", step := 1 }] ∧
      r.1.trades = [{ order := "Long", step := 1 }] := by
  refine ⟨_, RunOn_some series S newStatus, ?_, ?_⟩
  · simp [newStatus, hlen, List.range_succ, Strategy.newSignals, Strategy.sigToken,
      Strategy.sigCall, hsg, signalEntries, sliceTo, length_dataAfter]
  · simp [newStatus, hlen, List.range_succ, Strategy.newTrades, Strategy.entryToken,
      Strategy.exitToken, Strategy.stopToken, Strategy.entryCall, Strategy.exitCall,
      Strategy.stopCall, hen, hex, hst, tradeEntries, sliceTo, length_dataAfter,
      Strategy.dataSig, Strategy.dataEntry, Strategy.dataExit, length_applyWrites]

theorem longAtOne_Signaler (s : Unit) (h : Slice Nat) :
    (longAtOne.Signaler s h).1 = if h.len = 1 then "Long" else "" := by
  show (if h.visible.length = 1 then "Long" else "") = _
  rw [visible_length]

theorem longAtOne_Entryer (s : Unit) (h : Slice Nat) :
    (longAtOne.Entryer s h).1 = if h.len = 1 then "Long" else "" := by
  show (if h.visible.length = 1 then "Long" else "") = _
  rw [visible_length]

/-- The concrete scenario at the strategy `longAtOne` and the series
`[10, 20, 30]`. -/
theorem Run_scenario_witness :
    ([10, 20, 30] : List Nat).length = 3 ∧
      (∀ s h, (longAtOne.Signaler s h).1 = if h.len = 1 then "Long" else "") ∧
      (∀ s h, (longAtOne.Entryer s h).1 = if h.len = 1 then "Long" else "") ∧
      (∀ s h, (longAtOne.Exiter s h).1 = "") ∧ (∀ s h, (longAtOne.Stopper s h).1 = "") ∧
      ∃ r, Backtest.RunOn [10, 20, 30] (newBacktest (some longAtOne)) = Except.ok r ∧
        r.1.signals = [{ action := "Long", step := 1 }] ∧
        r.1.trades = [{ order := "Long", step := 1 }] :=
  ⟨rfl, longAtOne_Signaler, longAtOne_Entryer, fun _ _ => rfl, fun _ _ => rfl,
    Run_scenario longAtOne [10, 20, 30] rfl longAtOne_Signaler longAtOne_Entryer
      (fun _ _ => rfl) (fun _ _ => rfl)⟩

/-- C10 (append-only logs): for every strategy, every series and every
starting Status held by the Backtest, `Run` returns, the signals log before
the run is an initial segment of the signals log after it, and the trades log
before the run is an initial segment of the trades log after it. -/
theorem Run_logs_append_only {σ α : Type} (S : Strategy σ α) (series : List α)
    (status : Status) :
    ∃ r, Backtest.RunOn series { strategy := some S, status := status } = Except.ok r ∧
      status.signals <+: r.1.signals ∧ status.trades <+: r.1.trades :=
  ⟨_, RunOn_some series S status, ⟨_, rfl⟩, ⟨_, rfl⟩⟩

theorem iteration_signaler_indep {σ α : Type} (S1 S2 : Strategy σ α) (data : List α) (k : Nat)
    (h0 : S1.state = S2.state) (h1 : S1.Entryer = S2.Entryer) (h2 : S1.Exiter = S2.Exiter)
    (h3 : S1.Stopper = S2.Stopper) (h4 : ∀ s h, (S1.Signaler s h).2 = (S2.Signaler s h).2) :
    S1.entryCall data k = S2.entryCall data k ∧ S1.exitCall data k = S2.exitCall data k ∧
      S1.stopCall data k = S2.stopCall data k ∧ S1.dataAfter data k = S2.dataAfter data k := by
  have c : (S1.sigCall data k).2 = (S2.sigCall data k).2 := by
    unfold Strategy.sigCall
    rw [h0]
    exact h4 _ _
  have d1 : S1.dataSig data k = S2.dataSig data k := by
    unfold Strategy.dataSig
    rw [c]
  have e1 : S1.entryCall data k = S2.entryCall data k := by
    unfold Strategy.entryCall
    rw [c, d1, h1]
  have d2 : S1.dataEntry data k = S2.dataEntry data k := by
    unfold Strategy.dataEntry
    rw [d1, e1]
  have e2 : S1.exitCall data k = S2.exitCall data k := by
    unfold Strategy.exitCall
    rw [e1, d2, h2]
  have d3 : S1.dataExit data k = S2.dataExit data k := by
    unfold Strategy.dataExit
    rw [d2, e2]
  have e3 : S1.stopCall data k = S2.stopCall data k := by
    unfold Strategy.stopCall
    rw [e2, d3, h3]
  have d4 : S1.dataAfter data k = S2.dataAfter data k := by
    unfold Strategy.dataAfter
    rw [d3, e3]
  exact ⟨e1, e2, e3, d4⟩

theorem newTrades_signaler_indep {σ α : Type} (steps : List Nat) :
    ∀ (data : List α) (S1 S2 : Strategy σ α), S1.state = S2.state → S1.Entryer = S2.Entryer →
      S1.Exiter = S2.Exiter → S1.Stopper = S2.Stopper →
      (∀ s h, (S1.Signaler s h).2 = (S2.Signaler s h).2) →
      S1.newTrades data steps = S2.newTrades data steps := by
  induction steps with
  | nil => intro data S1 S2 _ _ _ _ _; rfl
  | cons k ks ih =>
    intro data S1 S2 h0 h1 h2 h3 h4
    obtain ⟨e1, e2, e3, d⟩ := iteration_signaler_indep S1 S2 data k h0 h1 h2 h3 h4
    have hafter : (S1.after data k).state = (S2.after data k).state := by
      simp [Strategy.after, e3]
    rw [Strategy.newTrades, Strategy.newTrades, d,
      ih (S2.dataAfter data k) (S1.after data k) (S2.after data k) hafter (by simpa using h1)
        (by simpa using h2) (by simpa using h3) (by simpa using h4)]
    simp [Strategy.entryToken, Strategy.exitToken, Strategy.stopToken, e1, e2, e3]

/-- C11, the claim refuted at a series of length 2: `flagQuiet` and
`flagIdle` have the same Entryer, Exiter and Stopper and start from the same
receiver state; the Signaler of `flagQuiet` sets the flag of the receiver,
which the Entryer reads, and the Signaler of `flagIdle` does not.  `Run` over
`[1, 2]` returns the trades `[Trade{"Long", 0}, Trade{"Long", 1}]` for the
first and no trade for the second. -/
theorem Run_trades_depend_on_signaler :
    flagQuiet.Entryer = flagIdle.Entryer ∧ flagQuiet.Exiter = flagIdle.Exiter ∧
      flagQuiet.Stopper = flagIdle.Stopper ∧ flagQuiet.state = flagIdle.state ∧
      ∃ r1 r2, Backtest.RunOn [1, 2] (newBacktest (some flagQuiet)) = Except.ok r1 ∧
        Backtest.RunOn [1, 2] (newBacktest (some flagIdle)) = Except.ok r2 ∧
        r1.1.trades = [{ order := "Long", step := 0 }, { order := "Long", step := 1 }] ∧
        r2.1.trades = [] ∧ r1.1.trades ≠ r2.1.trades :=
  ⟨rfl, rfl, rfl, rfl, _, _, rfl, rfl, rfl, rfl, by decide⟩

/-- C11 as amended (the token of the Signaler is advisory): for every series
and every two strategies that have the same Entryer, Exiter and Stopper,
start from the same receiver state, and whose Signalers differ only in the
token they return, leaving on every call the receiver in the same state and
making the same assignments to the series, `Run` on fresh Backtests returns
for both, and the two returned trades logs are equal. -/
theorem Run_trades_ignore_signaler_token {σ α : Type} (S1 S2 : Strategy σ α) (series : List α)
    (h0 : S1.state = S2.state) (h1 : S1.Entryer = S2.Entryer) (h2 : S1.Exiter = S2.Exiter)
    (h3 : S1.Stopper = S2.Stopper) (h4 : ∀ s h, (S1.Signaler s h).2 = (S2.Signaler s h).2) :
    ∃ r1 r2, Backtest.RunOn series (newBacktest (some S1)) = Except.ok r1 ∧
      Backtest.RunOn series (newBacktest (some S2)) = Except.ok r2 ∧
      r1.1.trades = r2.1.trades := by
  refine ⟨_, _, RunOn_some series _ newStatus, RunOn_some series _ newStatus, ?_⟩
  simp only [newStatus, List.nil_append]
  exact newTrades_signaler_indep _ series S1 S2 h0 h1 h2 h3 h4

/-- The amended C11 at `flagQuiet` and `flagLoud`, whose Signalers both set
the flag and return different tokens, over the series `[1, 2]`. -/
theorem Run_trades_ignore_signaler_token_witness :
    flagQuiet.state = flagLoud.state ∧ flagQuiet.Entryer = flagLoud.Entryer ∧
      flagQuiet.Exiter = flagLoud.Exiter ∧ flagQuiet.Stopper = flagLoud.Stopper ∧
      (∀ s h, (flagQuiet.Signaler s h).2 = (flagLoud.Signaler s h).2) ∧
      ∃ r1 r2, Backtest.RunOn [1, 2] (newBacktest (some flagQuiet)) = Except.ok r1 ∧
        Backtest.RunOn [1, 2] (newBacktest (some flagLoud)) = Except.ok r2 ∧
        r1.1.trades = r2.1.trades :=
  ⟨rfl, rfl, rfl, rfl, fun _ _ => rfl,
    Run_trades_ignore_signaler_token flagQuiet flagLoud [1, 2] rfl rfl rfl rfl (fun _ _ => rfl)⟩

/-- C12, the claim refuted: `newBacktest(nil)` produces a Backtest, holding
the nil strategy and a new Status, and with the loop of `Run` taken over the
series `[1]` the loop is entered: its first iteration fails on the call of
the Signaler of the nil strategy. -/
theorem newBacktest_nil_constructs :
    newBacktest (none : Option (Strategy Unit Nat)) = { strategy := none, status := newStatus } ∧
      (newBacktest (none : Option (Strategy Unit Nat))).iteration [1] 0 =
        Except.error RunPanic.nilStrategy ∧
      Backtest.RunOn [1] (newBacktest (none : Option (Strategy Unit Nat))) =
        Except.error RunPanic.nilStrategy :=
  ⟨rfl, rfl, rfl⟩

/-- C12 as amended: `newBacktest(nil)` does not fail; it returns a Backtest
that holds the nil strategy and a new Status.  `Run` as written, whose series
is empty, returns on it the empty Status without entering the loop body.
With a series bound to the loop, `Run` on it returns the empty Status when
the series is empty and otherwise fails in the first iteration, on the call
of the Signaler. -/
theorem Run_nil_strategy {σ α : Type} (series : List α) :
    newBacktest (none : Option (Strategy σ α)) = { strategy := none, status := newStatus } ∧
      Backtest.Run (newBacktest (none : Option (Strategy σ α))) =
        Except.ok (newStatus, newBacktest none) ∧
      Backtest.RunOn series (newBacktest (none : Option (Strategy σ α))) =
        (if series.length = 0 then Except.ok (newStatus, newBacktest none)
         else Except.error RunPanic.nilStrategy) ∧
      (∀ step, (newBacktest (none : Option (Strategy σ α))).iteration series step =
        Except.error RunPanic.nilStrategy) := by
  refine ⟨rfl, rfl, ?_, fun _ => rfl⟩
  cases series with
  | nil => rfl
  | cons a l =>
    simp [Backtest.RunOn, List.range_succ_eq_map, Backtest.loop, Backtest.iteration, newBacktest]

theorem Run_identity {σ α : Type} (b : Backtest σ α) : b.Run = Except.ok (b.status, b) := rfl

/-- C16 (Run as written is the identity on the Status): for every strategy
value and every starting Status, `Run`, whose data feed is the empty slice,
returns the Status the Backtest held, with step, signals and trades
unchanged, and leaves the Backtest as it was; any number of calls in
succession returns that same Status. -/
theorem Run_as_written_identity {σ α : Type} (strategy : Option (Strategy σ α))
    (status : Status) (n : Nat) :
    Backtest.Run { strategy := strategy, status := status } =
        Except.ok (status, { strategy := strategy, status := status }) ∧
      Backtest.RunRepeated n { strategy := strategy, status := status } =
        Except.ok (status, { strategy := strategy, status := status }) := by
  refine ⟨rfl, ?_⟩
  induction n with
  | zero => rfl
  | succ k ih => simpa [Backtest.RunRepeated, Run_identity] using ih

theorem range_split_at (s n : Nat) (h : s < n) :
    List.range n = List.range s ++ s :: (List.range (n - s - 1)).map (s + 1 + ·) := by
  rw [range_split s n (Nat.le_of_lt h)]
  have hn : n - s = (n - s - 1) + 1 := by omega
  rw [hn, List.range_succ_eq_map]
  simp only [List.map_cons, List.map_map, Nat.add_zero, Nat.add_sub_cancel]
  congr 2
  apply List.map_congr_left
  intro a _
  simp only [Function.comp, Nat.succ_eq_add_one]
  omega

theorem trades_split_at {α : Type} (sg en ex st : List α → String) (series : List α) (s : Nat)
    (hs : s < series.length) :
    ∃ A B : List Trade, (∀ t ∈ A, t.step < (s : Int)) ∧ (∀ t ∈ B, (s : Int) < t.step) ∧
      (Strategy.ofFuns sg en ex st).newTrades series (List.range series.length) =
        A ++ (tradeEntries (en (series.take s)) s ++ tradeEntries (ex (series.take s)) s
          ++ tradeEntries (st (series.take s)) s) ++ B := by
  refine ⟨(Strategy.ofFuns sg en ex st).newTrades series (List.range s),
    (Strategy.ofFuns sg en ex st).newTrades series
      ((List.range (series.length - s - 1)).map (s + 1 + ·)), ?_, ?_, ?_⟩
  · intro t ht
    obtain ⟨k, hk, hstep, _⟩ := mem_newTrades _ series _ t ht
    rw [hstep]
    exact_mod_cast List.mem_range.mp hk
  · intro t ht
    obtain ⟨k, hk, hstep, _⟩ := mem_newTrades _ series _ t ht
    obtain ⟨j, _, rfl⟩ := List.mem_map.mp hk
    rw [hstep]
    have : s < s + 1 + j := by omega
    exact_mod_cast this
  · rw [range_split_at s series.length hs, newTrades_append, ofFuns_advance,
      Strategy.newTrades, ofFuns_after, ofFuns_dataAfter, ofFuns_entryToken, ofFuns_exitToken,
      ofFuns_stopToken]
    simp only [List.append_assoc]

/-- C13 (the Stopper is independent of the Exiter): for every series, every
strategy given by functions of the history and every step `s` of the series
at which the Stopper returns "Sell", `Run` on a fresh Backtest returns a
trades log of the form `A ++ step-s entries ++ B`, all entries of `A` having
a step below `s` and all entries of `B` a step above `s`, in which the step-s
entries are the Entryer's trade if any, the Exiter's trade if any, and then
`Trade{"Sell", s}` of the Stopper, whatever the Exiter returned; and when the
Exiter returns "Sell" too, the step-s entries end with two entries
`Trade{"Sell", s}`, the Exiter's immediately followed by the Stopper's. -/
theorem Run_stopper_independent {α : Type} (sg en ex st : List α → String) (series : List α)
    (s : Nat) (hs : s < series.length) (hst : st (series.take s) = "Sell") :
    ∃ r A B, Backtest.RunOn series (newBacktest (some (Strategy.ofFuns sg en ex st))) =
        Except.ok r ∧
      (∀ t ∈ A, t.step < (s : Int)) ∧ (∀ t ∈ B, (s : Int) < t.step) ∧
      r.1.trades =
        A ++ ((if en (series.take s) = "" then []
                else [({ order := en (series.take s), step := (s : Int) } : Trade)])
              ++ (if ex (series.take s) = "" then []
                else [({ order := ex (series.take s), step := (s : Int) } : Trade)])
              ++ [({ order := "Sell", step := (s : Int) } : Trade)]) ++ B ∧
      (ex (series.take s) = "Sell" →
        r.1.trades =
          A ++ ((if en (series.take s) = "" then []
                  else [({ order := en (series.take s), step := (s : Int) } : Trade)])
                ++ [({ order := "Sell", step := (s : Int) } : Trade),
                    ({ order := "Sell", step := (s : Int) } : Trade)]) ++ B) := by
  obtain ⟨A, B, hA, hB, hsplit⟩ := trades_split_at sg en ex st series s hs
  have hE : ∀ x : String, tradeEntries x s =
      if x = "" then [] else [({ order := x, step := (s : Int) } : Trade)] := by
    intro x
    by_cases hx : x = "" <;> simp [tradeEntries, hx]
  have hsell : tradeEntries "Sell" s = [({ order := "Sell", step := (s : Int) } : Trade)] := by
    simp [tradeEntries]
  refine ⟨_, A, B, RunOn_some series _ newStatus, hA, hB, ?_, ?_⟩
  · simp only [newStatus, List.nil_append]
    rw [hsplit, hst, hsell, hE, hE]
  · intro hex
    simp only [newStatus, List.nil_append]
    rw [hsplit, hst, hex, hsell, hE]
    simp

/-- The Stopper theorem at the series `[1, 9, 3]` and step 2, where the
history is `[1, 9]` and the Exiter and the Stopper of `exitStop` both answer
"Sell". -/
theorem Run_stopper_independent_witness :
    2 < ([1, 9, 3] : List Nat).length ∧ sellAbove (([1, 9, 3] : List Nat).take 2) = "Sell" ∧
    ∃ r A B, Backtest.RunOn [1, 9, 3]
        (newBacktest (some (Strategy.ofFuns never longOnOne sellAbove sellAbove))) =
        Except.ok r ∧
      (∀ t ∈ A, t.step < ((2 : Nat) : Int)) ∧ (∀ t ∈ B, ((2 : Nat) : Int) < t.step) ∧
      r.1.trades =
        A ++ ((if longOnOne (([1, 9, 3] : List Nat).take 2) = "" then []
                else [({ order := longOnOne (([1, 9, 3] : List Nat).take 2),
                         step := ((2 : Nat) : Int) } : Trade)])
              ++ (if sellAbove (([1, 9, 3] : List Nat).take 2) = "" then []
                else [({ order := sellAbove (([1, 9, 3] : List Nat).take 2),
                         step := ((2 : Nat) : Int) } : Trade)])
              ++ [({ order := "Sell", step := ((2 : Nat) : Int) } : Trade)]) ++ B ∧
      (sellAbove (([1, 9, 3] : List Nat).take 2) = "Sell" →
        r.1.trades =
          A ++ ((if longOnOne (([1, 9, 3] : List Nat).take 2) = "" then []
                  else [({ order := longOnOne (([1, 9, 3] : List Nat).take 2),
                           step := ((2 : Nat) : Int) } : Trade)])
                ++ [({ order := "Sell", step := ((2 : Nat) : Int) } : Trade),
                    ({ order := "Sell", step := ((2 : Nat) : Int) } : Trade)]) ++ B) :=
  ⟨by decide, by decide,
    Run_stopper_independent never longOnOne sellAbove sellAbove [1, 9, 3] 2 (by decide)
      (by decide)⟩

theorem length_signalEntries_le (sig : String) (k : Nat) : (signalEntries sig k).length ≤ 1 := by
  unfold signalEntries
  split <;> simp

theorem length_tradeEntries_le (t : String) (k : Nat) : (tradeEntries t k).length ≤ 1 := by
  unfold tradeEntries
  split <;> simp

theorem length_newSignals_le {σ α : Type} (steps : List Nat) :
    ∀ (data : List α) (S : Strategy σ α), (S.newSignals data steps).length ≤ steps.length := by
  induction steps with
  | nil => intro data S; simp [Strategy.newSignals]
  | cons k ks ih =>
    intro data S
    rw [Strategy.newSignals, List.length_append, List.length_cons]
    have h1 := length_signalEntries_le (S.sigToken data k) k
    have h2 := ih (S.dataAfter data k) (S.after data k)
    omega

theorem length_newTrades_le {σ α : Type} (steps : List Nat) :
    ∀ (data : List α) (S : Strategy σ α), (S.newTrades data steps).length ≤ 3 * steps.length := by
  induction steps with
  | nil => intro data S; simp [Strategy.newTrades]
  | cons k ks ih =>
    intro data S
    rw [Strategy.newTrades]
    simp only [List.length_append, List.length_cons]
    have h1 := length_tradeEntries_le (S.entryToken data k) k
    have h2 := length_tradeEntries_le (S.exitToken data k) k
    have h3 := length_tradeEntries_le (S.stopToken data k) k
    have h4 := ih (S.dataAfter data k) (S.after data k)
    omega

theorem countP_newSignals_zero {σ α : Type} (data : List α) (steps : List Nat) (j : Int)
    (S : Strategy σ α) (h : ∀ k ∈ steps, (k : Int) ≠ j) :
    (S.newSignals data steps).countP (fun e => decide (e.step = j)) = 0 := by
  rw [List.countP_eq_zero]
  intro e he
  obtain ⟨k, hk, hstep, _⟩ := mem_newSignals steps data S e he
  simpa [hstep] using h k hk

theorem countP_newTrades_zero {σ α : Type} (data : List α) (steps : List Nat) (j : Int)
    (S : Strategy σ α) (h : ∀ k ∈ steps, (k : Int) ≠ j) :
    (S.newTrades data steps).countP (fun e => decide (e.step = j)) = 0 := by
  rw [List.countP_eq_zero]
  intro e he
  obtain ⟨k, hk, hstep, _⟩ := mem_newTrades steps data S e he
  simpa [hstep] using h k hk

theorem countP_signalEntries_of_ne (sig : String) (k : Nat) (j : Int) (h : (k : Int) ≠ j) :
    (signalEntries sig k).countP (fun e => decide (e.step = j)) = 0 := by
  rw [List.countP_eq_zero]
  intro e he
  simpa [(mem_signalEntries he).1] using h

theorem countP_tradeEntries_of_ne (t : String) (k : Nat) (j : Int) (h : (k : Int) ≠ j) :
    (tradeEntries t k).countP (fun e => decide (e.step = j)) = 0 := by
  rw [List.countP_eq_zero]
  intro e he
  simpa [(mem_tradeEntries he).1] using h

theorem countP_newSignals_le {σ α : Type} (steps : List Nat) (j : Int) :
    steps.Pairwise (· < ·) → ∀ (data : List α) (S : Strategy σ α),
      (S.newSignals data steps).countP (fun e => decide (e.step = j)) ≤ 1 := by
  induction steps with
  | nil => intro _ data S; simp [Strategy.newSignals]
  | cons k ks ih =>
    intro hp data S
    rw [List.pairwise_cons] at hp
    rw [Strategy.newSignals, List.countP_append]
    by_cases hk : (k : Int) = j
    · have hz := countP_newSignals_zero (S.dataAfter data k) ks j (S.after data k) (fun i hi => by
        have := hp.1 i hi
        omega)
      have h1 := Nat.le_trans (List.countP_le_length (fun e : Signal => decide (e.step = j)))
        (length_signalEntries_le (S.sigToken data k) k)
      omega
    · have hz := countP_signalEntries_of_ne (S.sigToken data k) k j hk
      have h2 := ih hp.2 (S.dataAfter data k) (S.after data k)
      omega

theorem countP_newTrades_le {σ α : Type} (steps : List Nat) (j : Int) :
    steps.Pairwise (· < ·) → ∀ (data : List α) (S : Strategy σ α),
      (S.newTrades data steps).countP (fun e => decide (e.step = j)) ≤ 3 := by
  induction steps with
  | nil => intro _ data S; simp [Strategy.newTrades]
  | cons k ks ih =>
    intro hp data S
    rw [List.pairwise_cons] at hp
    rw [Strategy.newTrades]
    simp only [List.countP_append]
    by_cases hk : (k : Int) = j
    · have hz := countP_newTrades_zero (S.dataAfter data k) ks j (S.after data k) (fun i hi => by
        have := hp.1 i hi
        omega)
      have h1 := Nat.le_trans (List.countP_le_length (fun e : Trade => decide (e.step = j)))
        (length_tradeEntries_le (S.entryToken data k) k)
      have h2 := Nat.le_trans (List.countP_le_length (fun e : Trade => decide (e.step = j)))
        (length_tradeEntries_le (S.exitToken data k) k)
      have h3 := Nat.le_trans (List.countP_le_length (fun e : Trade => decide (e.step = j)))
        (length_tradeEntries_le (S.stopToken data k) k)
      omega
    · have z1 := countP_tradeEntries_of_ne (S.entryToken data k) k j hk
      have z2 := countP_tradeEntries_of_ne (S.exitToken data k) k j hk
      have z3 := countP_tradeEntries_of_ne (S.stopToken data k) k j hk
      have h2 := ih hp.2 (S.dataAfter data k) (S.after data k)
      omega

/-- C14 (bounds on the logs): for every strategy and every series of length
`N`, `Run` on a fresh Backtest returns logs in which every Signal and every
Trade has a non-empty action or order and a step `s` with `0 ≤ s < N`; at
most one Signal and at most three Trades carry any given step; and
`len(signals) ≤ N`, `len(trades) ≤ 3 * N`. -/
theorem Run_logs_bounded {σ α : Type} (S : Strategy σ α) (series : List α) :
    ∃ r, Backtest.RunOn series (newBacktest (some S)) = Except.ok r ∧
      (∀ e ∈ r.1.signals, e.action ≠ "" ∧ 0 ≤ e.step ∧ e.step < (series.length : Int)) ∧
      (∀ t ∈ r.1.trades, t.order ≠ "" ∧ 0 ≤ t.step ∧ t.step < (series.length : Int)) ∧
      (∀ j : Int, r.1.signals.countP (fun e => decide (e.step = j)) ≤ 1) ∧
      (∀ j : Int, r.1.trades.countP (fun t => decide (t.step = j)) ≤ 3) ∧
      r.1.signals.length ≤ series.length ∧ r.1.trades.length ≤ 3 * series.length := by
  refine ⟨_, RunOn_some series S newStatus, ?_, ?_, ?_, ?_, ?_, ?_⟩ <;>
    simp only [newStatus, List.nil_append]
  · intro e he
    obtain ⟨k, hk, hstep, hact⟩ := mem_newSignals _ series S e he
    refine ⟨hact, ?_, ?_⟩ <;> rw [hstep]
    · exact Int.ofNat_nonneg k
    · exact_mod_cast List.mem_range.mp hk
  · intro t ht
    obtain ⟨k, hk, hstep, hord⟩ := mem_newTrades _ series S t ht
    refine ⟨hord, ?_, ?_⟩ <;> rw [hstep]
    · exact Int.ofNat_nonneg k
    · exact_mod_cast List.mem_range.mp hk
  · exact fun j => countP_newSignals_le _ j (List.pairwise_lt_range series.length) series S
  · exact fun j => countP_newTrades_le _ j (List.pairwise_lt_range series.length) series S
  · simpa using length_newSignals_le (List.range series.length) series S
  · simpa using length_newTrades_le (List.range series.length) series S

theorem pairwise_lt_newSignals {σ α : Type} (steps : List Nat) :
    steps.Pairwise (· < ·) → ∀ (data : List α) (S : Strategy σ α),
      (S.newSignals data steps).Pairwise (fun a b => a.step < b.step) := by
  induction steps with
  | nil => intro _ data S; simp [Strategy.newSignals]
  | cons k ks ih =>
    intro hp data S
    rw [List.pairwise_cons] at hp
    rw [Strategy.newSignals, List.pairwise_append]
    refine ⟨?_, ih hp.2 _ _, ?_⟩
    · unfold signalEntries
      split <;> simp
    · intro a ha b hb
      obtain ⟨hka, _⟩ := mem_signalEntries ha
      obtain ⟨j, hj, hjb, _⟩ := mem_newSignals ks _ _ b hb
      rw [hka, hjb]
      exact_mod_cast hp.1 j hj

/-- C15 (signals strictly increasing, trades only non-decreasing): for every
strategy and every series, `Run` on a fresh Backtest returns a signals log in
which every entry has a step strictly below the step of the entry that
follows it, so no two signals share a step, and a trades log in which every
entry has a step less than or equal to that of the entry that follows it; the
trades log need not be strictly increasing: the run of `exitStop` over
`[1, 9, 3]` returns two trades with step 2. -/
theorem Run_signals_strictly_increasing {σ α : Type} (S : Strategy σ α) (series : List α) :
    (∃ r, Backtest.RunOn series (newBacktest (some S)) = Except.ok r ∧
      List.Chain' (fun a b : Signal => a.step < b.step) r.1.signals ∧
      List.Pairwise (fun a b : Signal => a.step ≠ b.step) r.1.signals ∧
      List.Chain' (fun a b : Trade => a.step ≤ b.step) r.1.trades) ∧
    (∃ q, Backtest.RunOn [1, 9, 3] (newBacktest (some exitStop)) = Except.ok q ∧
      q.1.trades = [{ order := "Long", step := 1 }, { order := "Sell", step := 2 },
        { order := "Sell", step := 2 }] ∧
      ¬ List.Chain' (fun a b : Trade => a.step < b.step) q.1.trades) := by
  have hlt := pairwise_lt_newSignals _ (List.pairwise_lt_range series.length) series S
  refine ⟨⟨_, RunOn_some series S newStatus, ?_, ?_, ?_⟩, ⟨_, rfl, rfl, ?_⟩⟩
  · simpa [newStatus] using hlt.chain'
  · simpa [newStatus] using hlt.imp (fun h => Int.ne_of_lt h)
  · simpa [newStatus] using
      (pairwise_newTrades _ (List.pairwise_le_range series.length) series S).chain'
  · intro h
    change List.Chain' (fun a b : Trade => a.step < b.step)
      [{ order := "Long", step := 1 }, { order := "Sell", step := 2 },
        { order := "Sell", step := 2 }] at h
    simp at h

end Testflight
